import Mathlib

set_option maxRecDepth 8000

/-!
Shallow embedding of `src/vec.h` (c-vec 1.0.0): a generic growable array for C
whose handle is a pointer to the element buffer, with a `{len, cap}` header
stored immediately before the buffer.

Modelling conventions:

* `size_t` values are `Nat` kept below `2 ^ w`, where `w` is the bit width of
  `size_t` (a platform parameter, at least 16 on any conforming C platform;
  64 on common platforms).  Arithmetic the source performs on `size_t`
  (`cap * 2`, `len + 1`, `len - 1`) is modelled with an explicit `% 2 ^ w`
  (two's-complement wraparound of unsigned arithmetic).
* The allocator (`VEC_MALLOC` / `VEC_REALLOC`) is modelled by an oracle
  `allocOk : Bool` giving the outcome of the single allocation call a growth
  path can make; `VEC_REALLOC` preserves the existing bytes up to
  min(old, new) size.  Uninitialized memory returned by the allocator is
  modelled by an arbitrary `junk` value.  The allocation primitives are not
  modelled as touching `errno`.
* A `vec_t(T)` handle is in one of three states: `null` (the handle is the
  NULL pointer, the canonical unallocated state), `alloc h buf` (the handle
  points at a live allocation with header `h` and element buffer `buf`, where
  `buf.length` is the number of element slots `cap` the allocation holds), or
  `freed` (the handle is a dangling non-null pointer whose allocation has been
  freed, the state `vec_deinit` leaves behind).
* Operations return `Option`: `none` means the call does not complete
  normally — `VEC_PANIC` (fail-fast allocation failure), a failed
  `VEC_ASSERT` contract check, or undefined behaviour (an out-of-bounds
  buffer access, or any access through a freed allocation or NULL handle).
  Memory accesses are bounds-checked in the model and out-of-bounds access
  is undefined behaviour.
-/

namespace CVec

/-- Value of the `errno` code `ENOMEM` stored by the fail-soft variants. -/
def ENOMEM : Nat := 12

/-- Header stored immediately before the element buffer (`vec__header_t` in
`src/vec.h`): `size_t len; size_t cap;`. -/
structure vec__header_t where
  len : Nat
  cap : Nat
deriving Repr, DecidableEq

/-- State of a `vec_t(T)` handle together with the allocation it points at.
`null` is the unallocated state `*vec == NULL`; `alloc h buf` is a live
allocation (header `h`, `buf.length` element slots); `freed` is a dangling
handle whose allocation was freed but whose pointer was never reset. -/
inductive Vec (α : Type) where
  | null : Vec α
  | alloc : vec__header_t → List α → Vec α
  | freed : Vec α
deriving Repr, DecidableEq

/-- Embeds `vec_len`: `vec__has_header(vec) ? vec__get_header(vec)->len : 0`.
Reading the header of a freed allocation is undefined behaviour. -/
def vec_len {α : Type} : Vec α → Option Nat
  | .null => some 0
  | .alloc h _ => some h.len
  | .freed => none

/-- Embeds `vec_cap`: `vec__has_header(vec) ? vec__get_header(vec)->cap : 0`. -/
def vec_cap {α : Type} : Vec α → Option Nat
  | .null => some 0
  | .alloc h _ => some h.cap
  | .freed => none

/-- Embeds the user-level subscript read `(*(vec))[i]`.  Reading through a
NULL or dangling handle, or past the end of the allocation, is undefined
behaviour. -/
def vec_index {α : Type} (i : Nat) : Vec α → Option α
  | .alloc _ buf => buf.get? i
  | _ => none

/-- Bounds-checked store `(*(vec))[i] = x`; a store past the end of the
allocation is undefined behaviour (`none`). -/
def memWrite {α : Type} (buf : List α) (i : Nat) (x : α) : Option (List α) :=
  if i < buf.length then some (buf.set i x) else none

/-- Bounds-checked load `(*(vec))[i]`; a load past the end of the allocation
is undefined behaviour (`none`). -/
def memRead {α : Type} (buf : List α) (i : Nat) : Option α :=
  buf.get? i

/-- The `size_t` expression `n - 1` (wraps at zero). -/
def size_sub_one (w n : Nat) : Nat :=
  (n + (2 ^ w - 1)) % 2 ^ w

/-- Embeds `vec__grow_or_fail` (src/vec.h lines 275-314).  Returns the new
handle state and `true`, or the unchanged state and `false` when the
allocation call failed and the caller's fail block ran.  If unallocated,
malloc one slot and set `len = cap = 1`; if `len < cap`, just `len += 1`;
otherwise realloc to `_vec_new_cap = cap * 2` slots (unchecked `size_t`
arithmetic) and on success set `cap = _vec_new_cap; len += 1`. -/
def vec__grow_or_fail {α : Type} (w : Nat) (allocOk : Bool) (junk : α) :
    Vec α → Option (Vec α × Bool)
  | .null =>
      if allocOk then some (.alloc ⟨1, 1⟩ [junk], true)
      else some (.null, false)
  | .alloc h buf =>
      if h.len < h.cap then
        some (.alloc ⟨(h.len + 1) % 2 ^ w, h.cap⟩ buf, true)
      else
        if allocOk then
          some (.alloc ⟨(h.len + 1) % 2 ^ w, (h.cap * 2) % 2 ^ w⟩
            (buf.take ((h.cap * 2) % 2 ^ w) ++
              List.replicate ((h.cap * 2) % 2 ^ w - buf.length) junk), true)
        else some (.alloc h buf, false)
  | .freed => none

/-- Embeds `vec__reserve_or_fail` (src/vec.h lines 316-351).  A requested
capacity of 0 is a no-op (the `break` runs before any header access); if
unallocated, malloc exactly the requested capacity with `len = 0`; if the
request exceeds the current capacity, realloc to exactly the request;
otherwise a no-op. -/
def vec__reserve_or_fail {α : Type} (w : Nat) (allocOk : Bool) (junk : α)
    (capacity : Nat) (v : Vec α) : Option (Vec α × Bool) :=
  let c := capacity % 2 ^ w
  if c = 0 then some (v, true)
  else
    match v with
    | .null =>
        if allocOk then some (.alloc ⟨0, c⟩ (List.replicate c junk), true)
        else some (.null, false)
    | .alloc h buf =>
        if c > h.cap then
          if allocOk then
            some (.alloc ⟨h.len, c⟩
              (buf.take c ++ List.replicate (c - buf.length) junk), true)
          else some (.alloc h buf, false)
        else some (.alloc h buf, true)
    | .freed => none

/-- Embeds `vec_push`: grow (fail-fast, `VEC_PANIC` on allocation failure,
which never returns), then `(*(vec))[vec__get_header(vec)->len - 1] = value`. -/
def vec_push {α : Type} (w : Nat) (allocOk : Bool) (junk value : α) (v : Vec α) :
    Option (Vec α) :=
  match vec__grow_or_fail w allocOk junk v with
  | some (.alloc h buf, true) =>
      match memWrite buf (size_sub_one w h.len) value with
      | some buf2 => some (.alloc h buf2)
      | none => none
  | some (_, true) => none
  | some (_, false) => none
  | none => none

/-- Embeds `vec_try_push`: grow with fail block `errno = ENOMEM`, then write
the value only `if (errno != ENOMEM)`.  Note the check reads the live
process-wide `errno`, which the successful growth path never resets. -/
def vec_try_push {α : Type} (w : Nat) (allocOk : Bool) (junk value : α)
    (errno : Nat) (v : Vec α) : Option (Nat × Vec α) :=
  match vec__grow_or_fail w allocOk junk v with
  | none => none
  | some (v', ok) =>
      let errno2 := if ok then errno else ENOMEM
      if errno2 ≠ ENOMEM then
        match v' with
        | .alloc h buf =>
            match memWrite buf (size_sub_one w h.len) value with
            | some buf2 => some (errno2, .alloc h buf2)
            | none => none
        | _ => none
      else some (errno2, v')

/-- Embeds `vec_emplace`: grow (fail-fast), then return the address of the
new last slot, `*(vec) + vec__get_header(vec)->len - 1`, as a slot index. -/
def vec_emplace {α : Type} (w : Nat) (allocOk : Bool) (junk : α) (v : Vec α) :
    Option (Nat × Vec α) :=
  match vec__grow_or_fail w allocOk junk v with
  | some (.alloc h buf, true) => some (size_sub_one w h.len, .alloc h buf)
  | some (_, true) => none
  | some (_, false) => none
  | none => none

/-- Embeds `vec_try_emplace`.  NOTE: the source (src/vec.h line 178) writes
the result expression as `(errno != ENOMEM : (*(vec) + ... ) : NULL)`, which
is not valid C — the first `:` must be `?`.  The macro therefore cannot
compile as written; this definition models the evidently intended conditional
`errno != ENOMEM ? pointer-to-new-last-slot : NULL`.  The returned
`Option Nat` is the pointer: `some` of the slot index, or `none` for NULL. -/
def vec_try_emplace {α : Type} (w : Nat) (allocOk : Bool) (junk : α)
    (errno : Nat) (v : Vec α) : Option (Nat × Vec α × Option Nat) :=
  match vec__grow_or_fail w allocOk junk v with
  | none => none
  | some (v', ok) =>
      let errno2 := if ok then errno else ENOMEM
      match v' with
      | .alloc h buf =>
          some (errno2, .alloc h buf,
            if errno2 ≠ ENOMEM then some (size_sub_one w h.len) else none)
      | v'' => if errno2 ≠ ENOMEM then none else some (errno2, v'', none)

/-- Embeds `vec_reserve`: reserve with fail block `VEC_PANIC` (never returns). -/
def vec_reserve {α : Type} (w : Nat) (allocOk : Bool) (junk : α)
    (capacity : Nat) (v : Vec α) : Option (Vec α) :=
  match vec__reserve_or_fail w allocOk junk capacity v with
  | some (v', true) => some v'
  | some (_, false) => none
  | none => none

/-- Embeds `vec_try_reserve`: reserve with fail block `errno = ENOMEM`. -/
def vec_try_reserve {α : Type} (w : Nat) (allocOk : Bool) (junk : α)
    (capacity : Nat) (errno : Nat) (v : Vec α) : Option (Nat × Vec α) :=
  match vec__reserve_or_fail w allocOk junk capacity v with
  | some (v', ok) => some (if ok then errno else ENOMEM, v')
  | none => none

/-- Embeds `vec_pop`: `VEC_ASSERT(vec_len(vec) > 0)` (treated as checked; a
violated contract aborts), then `len -= 1`. -/
def vec_pop {α : Type} : Vec α → Option (Vec α)
  | .alloc h buf => if 0 < h.len then some (.alloc ⟨h.len - 1, h.cap⟩ buf) else none
  | _ => none

/-- Embeds `vec_clear`: if allocated, set `len = 0`; a no-op on a NULL
handle; undefined on a freed handle. -/
def vec_clear {α : Type} : Vec α → Option (Vec α)
  | .null => some .null
  | .alloc h buf => some (.alloc ⟨0, h.cap⟩ buf)
  | .freed => none

/-- Embeds `vec_remove_swap_at`: assert `index < vec_len`, then `len -= 1`
and `(*(vec))[index] = (*(vec))[len]` (the former last element). -/
def vec_remove_swap_at {α : Type} (i : Nat) : Vec α → Option (Vec α)
  | .alloc h buf =>
      if i < h.len then
        match memRead buf (h.len - 1) with
        | some last =>
            match memWrite buf i last with
            | some buf2 => some (.alloc ⟨h.len - 1, h.cap⟩ buf2)
            | none => none
        | none => none
      else none
  | _ => none

/-- Embeds the shifting loop of `vec_remove_shift_at`:
`for (i = index; i < len; i++) buf[i] = buf[i+1]` where `len` has already
been decremented. -/
def shiftLoop {α : Type} (buf : List α) (i stop : Nat) : Option (List α) :=
  if _h : i < stop then
    match buf.get? (i + 1) with
    | some x => shiftLoop (buf.set i x) (i + 1) stop
    | none => none
  else some buf
termination_by stop - i
decreasing_by omega

/-- Embeds `vec_remove_shift_at`: assert `index < vec_len`, then `len -= 1`
and shift every subsequent element one slot toward the removed index. -/
def vec_remove_shift_at {α : Type} (i : Nat) : Vec α → Option (Vec α)
  | .alloc h buf =>
      if i < h.len then
        match shiftLoop buf i (h.len - 1) with
        | some buf2 => some (.alloc ⟨h.len - 1, h.cap⟩ buf2)
        | none => none
      else none
  | _ => none

/-- Embeds `vec_deinit`:
`VEC_FREE(vec__has_header(vec) ? vec__get_header(vec) : NULL)`.  It frees the
allocation (`free(NULL)` is a no-op) but never writes to `*vec`, so an
allocated handle becomes a dangling `freed` handle, not `null`; freeing a
dangling handle again is a double free (undefined behaviour). -/
def vec_deinit {α : Type} : Vec α → Option (Vec α)
  | .null => some .null
  | .alloc _ _ => some .freed
  | .freed => none

/-- Embeds `vec_deinit_with`: if allocated, invoke the element destructor on
slots `0 .. len-1` in index order, then free the allocation.  The returned
list is the sequence of element values passed to the destructor, in call
order.  Like `vec_deinit`, it never resets the handle. -/
def vec_deinit_with {α : Type} : Vec α → Option (List α × Vec α)
  | .null => some ([], .null)
  | .alloc h buf =>
      if h.len ≤ buf.length then some (buf.take h.len, .freed) else none
  | .freed => none

/-- Process state threaded through a sequence of calls: the process-wide
`errno` and the `vec_t(T)` handle. -/
structure Mach (α : Type) where
  errno : Nat
  vec : Vec α
deriving Repr, DecidableEq

/-- One public operation of the library, with the allocation oracle for the
growth call it may make. -/
inductive VecOp (α : Type) where
  | init : VecOp α
  | push : Bool → α → VecOp α
  | try_push : Bool → α → VecOp α
  | emplace : Bool → VecOp α
  | try_emplace : Bool → VecOp α
  | reserve : Bool → Nat → VecOp α
  | try_reserve : Bool → Nat → VecOp α
  | pop : VecOp α
  | clear : VecOp α
  | remove_swap_at : Nat → VecOp α
  | remove_shift_at : Nat → VecOp α
  | deinit : VecOp α
deriving Repr, DecidableEq

/-- One call of a public operation on the process state. -/
def step {α : Type} (w : Nat) (junk : α) (m : Mach α) : VecOp α → Option (Mach α)
  | .init => some ⟨m.errno, .null⟩
  | .push ok x => (vec_push w ok junk x m.vec).map fun v' => ⟨m.errno, v'⟩
  | .try_push ok x => (vec_try_push w ok junk x m.errno m.vec).map fun p => ⟨p.1, p.2⟩
  | .emplace ok => (vec_emplace w ok junk m.vec).map fun p => ⟨m.errno, p.2⟩
  | .try_emplace ok => (vec_try_emplace w ok junk m.errno m.vec).map fun p => ⟨p.1, p.2.1⟩
  | .reserve ok k => (vec_reserve w ok junk k m.vec).map fun v' => ⟨m.errno, v'⟩
  | .try_reserve ok k => (vec_try_reserve w ok junk k m.errno m.vec).map fun p => ⟨p.1, p.2⟩
  | .pop => (vec_pop m.vec).map fun v' => ⟨m.errno, v'⟩
  | .clear => (vec_clear m.vec).map fun v' => ⟨m.errno, v'⟩
  | .remove_swap_at i => (vec_remove_swap_at i m.vec).map fun v' => ⟨m.errno, v'⟩
  | .remove_shift_at i => (vec_remove_shift_at i m.vec).map fun v' => ⟨m.errno, v'⟩
  | .deinit => (vec_deinit m.vec).map fun v' => ⟨m.errno, v'⟩

/-- Run a sequence of calls; `none` as soon as one call panics, fails an
assertion, or hits undefined behaviour. -/
def runFrom {α : Type} (w : Nat) (junk : α) (m : Mach α) :
    List (VecOp α) → Option (Mach α)
  | [] => some m
  | op :: rest => (step w junk m op).bind fun m' => runFrom w junk m' rest

/-- The list of states observed after each successive call (cut short when a
call does not complete normally). -/
def runStates {α : Type} (w : Nat) (junk : α) (m : Mach α) :
    List (VecOp α) → List (Mach α)
  | [] => []
  | op :: rest =>
      match step w junk m op with
      | none => []
      | some m' => m' :: runStates w junk m' rest

/-! Basic facts about list stores, loads and prefixes, proved from first
principles so the development is self-contained. -/

theorem list_get_set_same {α : Type} :
    ∀ (l : List α) (n : Nat) (a : α), n < l.length → (l.set n a).get? n = some a
  | [], n, _, h => absurd h (Nat.not_lt_zero n)
  | _ :: _, 0, _, _ => rfl
  | _ :: xs, n + 1, a, h => list_get_set_same xs n a (Nat.lt_of_succ_lt_succ h)

theorem list_get_set_ne {α : Type} :
    ∀ (l : List α) (n m : Nat) (a : α), n ≠ m → (l.set n a).get? m = l.get? m
  | [], _, _, _, _ => rfl
  | _ :: _, 0, 0, _, h => absurd rfl h
  | _ :: _, 0, _ + 1, _, _ => rfl
  | _ :: _, _ + 1, 0, _, _ => rfl
  | _ :: xs, n + 1, m + 1, a, h =>
      list_get_set_ne xs n m a fun e => h (by rw [e])

theorem list_take_set_concat {α : Type} :
    ∀ (l : List α) (n : Nat) (a : α), n < l.length →
      (l.set n a).take (n + 1) = l.take n ++ [a]
  | [], n, _, h => absurd h (Nat.not_lt_zero n)
  | _ :: _, 0, _, _ => rfl
  | x :: xs, n + 1, a, h =>
      congrArg (x :: ·) (list_take_set_concat xs n a (Nat.lt_of_succ_lt_succ h))

theorem list_get_take {α : Type} :
    ∀ (l : List α) (n m : Nat), m < n → (l.take n).get? m = l.get? m
  | [], n, m, _ => by cases n <;> rfl
  | _ :: _, _ + 1, 0, _ => rfl
  | _ :: xs, n + 1, m + 1, h => list_get_take xs n m (Nat.lt_of_succ_lt_succ h)
  | _ :: _, 0, m, h => absurd h (Nat.not_lt_zero m)

theorem list_take_append_left {α : Type} :
    ∀ (l l' : List α) (n : Nat), n ≤ l.length → (l ++ l').take n = l.take n
  | _, _, 0, _ => rfl
  | [], _, n + 1, h => absurd h (by simp)
  | x :: xs, l', n + 1, h =>
      congrArg (x :: ·) (list_take_append_left xs l' n (Nat.le_of_succ_le_succ h))

theorem list_take_all {α : Type} :
    ∀ (l : List α) (n : Nat), l.length ≤ n → l.take n = l
  | [], n, _ => by cases n <;> rfl
  | _ :: _, 0, h => absurd h (by simp)
  | x :: xs, n + 1, h =>
      congrArg (x :: ·) (list_take_all xs n (Nat.le_of_succ_le_succ h))

theorem list_get_append_left {α : Type} :
    ∀ (l l' : List α) (n : Nat), n < l.length → (l ++ l').get? n = l.get? n
  | [], _, n, h => absurd h (Nat.not_lt_zero n)
  | _ :: _, _, 0, _ => rfl
  | _ :: xs, l', n + 1, h => list_get_append_left xs l' n (Nat.lt_of_succ_lt_succ h)

theorem list_get_some_of_lt {α : Type} :
    ∀ (l : List α) (n : Nat), n < l.length → ∃ a, l.get? n = some a
  | [], n, h => absurd h (Nat.not_lt_zero n)
  | x :: _, 0, _ => ⟨x, rfl⟩
  | _ :: xs, n + 1, h => list_get_some_of_lt xs n (Nat.lt_of_succ_lt_succ h)

/-! Arithmetic facts about `size_t` wraparound. -/

theorem two_pow_split {w : Nat} (hw : 1 ≤ w) : 2 ^ w = 2 ^ (w - 1) * 2 := by
  conv_lhs => rw [← Nat.sub_add_cancel hw]
  rw [pow_succ]

theorem size_sub_one_eq {w n : Nat} (h1 : 1 ≤ n) (h2 : n < 2 ^ w) :
    size_sub_one w n = n - 1 := by
  have hp : 1 ≤ 2 ^ w := Nat.one_le_two_pow
  unfold size_sub_one
  have he : n + (2 ^ w - 1) = (n - 1) + 2 ^ w := by omega
  rw [he, Nat.add_mod_right]
  exact Nat.mod_eq_of_lt (by omega)

/-! Shape lemmas for the growth engine. -/

theorem grow_null_ok {α : Type} (w : Nat) (junk : α) :
    vec__grow_or_fail w true junk (Vec.null : Vec α) =
      some (.alloc ⟨1, 1⟩ [junk], true) := rfl

theorem grow_null_fail {α : Type} (w : Nat) (junk : α) :
    vec__grow_or_fail w false junk (Vec.null : Vec α) = some (.null, false) := rfl

theorem grow_fast {α : Type} (w : Nat) (allocOk : Bool) (junk : α)
    (h : vec__header_t) (buf : List α) (hlt : h.len < h.cap) (hcw : h.cap < 2 ^ w) :
    vec__grow_or_fail w allocOk junk (.alloc h buf) =
      some (.alloc ⟨h.len + 1, h.cap⟩ buf, true) := by
  simp [vec__grow_or_fail, hlt, Nat.mod_eq_of_lt (by omega : h.len + 1 < 2 ^ w)]

theorem grow_full_ok {α : Type} (w : Nat) (junk : α) (h : vec__header_t)
    (buf : List α) (hfull : h.len = h.cap) (hpos : 0 < h.cap)
    (hno : h.cap * 2 < 2 ^ w) (hbuf : buf.length = h.cap) :
    vec__grow_or_fail w true junk (.alloc h buf) =
      some (.alloc ⟨h.len + 1, h.cap * 2⟩ (buf ++ List.replicate h.cap junk), true) := by
  have hnlt : ¬ h.len < h.cap := by omega
  have hmod2 : (h.cap * 2) % 2 ^ w = h.cap * 2 := Nat.mod_eq_of_lt hno
  have hmod1 : (h.len + 1) % 2 ^ w = h.len + 1 := Nat.mod_eq_of_lt (by omega)
  have htake : buf.take (h.cap * 2) = buf := list_take_all buf _ (by omega)
  have hrep : h.cap * 2 - buf.length = h.cap := by omega
  simp [vec__grow_or_fail, hnlt, hmod2, hmod1, htake, hrep]

theorem grow_full_fail {α : Type} (w : Nat) (junk : α) (h : vec__header_t)
    (buf : List α) (hfull : ¬ h.len < h.cap) :
    vec__grow_or_fail w false junk (.alloc h buf) = some (.alloc h buf, false) := by
  simp [vec__grow_or_fail, hfull]

/-! The documented invariant (`length ≤ capacity`, `capacity == 0` iff
unallocated, `cap` a `size_t` value) and the no-overflow side condition for
capacity doubling. -/

/-- Invariant of a handle state: a live allocation has `len ≤ cap`,
`0 < cap`, and `cap` representable in `size_t`. -/
def InvB {α : Type} (w : Nat) : Vec α → Bool
  | .alloc h _ => decide (h.len ≤ h.cap) && decide (0 < h.cap) && decide (h.cap < 2 ^ w)
  | _ => true

/-- Well-formedness of a handle state including the buffer: the allocation
really holds `cap` element slots.  A freed handle is not well formed. -/
def GoodB {α : Type} (w : Nat) : Vec α → Bool
  | .null => true
  | .alloc h buf =>
      decide (h.len ≤ h.cap) && decide (0 < h.cap) && (buf.length == h.cap) &&
        decide (h.cap < 2 ^ w)
  | .freed => false

/-- Whether a grow-by-one on this state takes the fast path (no allocation). -/
def fastB {α : Type} : Vec α → Bool
  | .alloc h _ => decide (h.len < h.cap)
  | _ => false

/-- Whether a grow-by-one on this state avoids `size_t` overflow in
`cap * 2` (trivially true when no doubling happens). -/
def growNoOverflowB {α : Type} (w : Nat) : Vec α → Bool
  | .alloc h _ => decide (h.len < h.cap) || decide (h.cap * 2 < 2 ^ w)
  | _ => true

/-- The no-overflow side condition for one call: growth-triggering calls must
not double a capacity at or above `2 ^ (w - 1)`. -/
def noOverflowStep {α : Type} (w : Nat) (v : Vec α) : VecOp α → Bool
  | .push _ _ => growNoOverflowB w v
  | .try_push _ _ => growNoOverflowB w v
  | .emplace _ => growNoOverflowB w v
  | .try_emplace _ => growNoOverflowB w v
  | _ => true

theorem invB_alloc_iff {α : Type} {w : Nat} {h : vec__header_t} {buf : List α} :
    InvB w (Vec.alloc h buf) = true ↔ h.len ≤ h.cap ∧ 0 < h.cap ∧ h.cap < 2 ^ w := by
  simp [InvB, and_assoc]

theorem one_lt_two_pow_of_le {w : Nat} (hw : 1 ≤ w) : 1 < 2 ^ w := by
  calc 1 < 2 ^ 1 := by norm_num
  _ ≤ 2 ^ w := Nat.pow_le_pow_right (by norm_num) hw

theorem grow_preserves_inv {α : Type} {w : Nat} {allocOk : Bool} {junk : α}
    {v v' : Vec α} {b : Bool} (hw : 1 ≤ w) (hv : InvB w v = true)
    (hno : growNoOverflowB w v = true)
    (hg : vec__grow_or_fail w allocOk junk v = some (v', b)) : InvB w v' = true := by
  have hp2 : 1 < 2 ^ w := one_lt_two_pow_of_le hw
  cases v with
  | null =>
      cases allocOk with
      | true =>
          rw [grow_null_ok] at hg
          cases hg
          simp [InvB]
          omega
      | false => rw [grow_null_fail] at hg; cases hg; rfl
  | alloc h buf =>
      rw [invB_alloc_iff] at hv
      obtain ⟨hlc, hpos, hcw⟩ := hv
      by_cases hlt : h.len < h.cap
      · rw [grow_fast w allocOk junk h buf hlt hcw] at hg
        cases hg
        simp [InvB]
        omega
      · have hfull : h.len = h.cap := by omega
        have hno2 : h.cap * 2 < 2 ^ w := by
          simp [growNoOverflowB, hlt] at hno
          exact hno
        cases allocOk with
        | true =>
            have hm2 : (h.cap * 2) % 2 ^ w = h.cap * 2 := Nat.mod_eq_of_lt hno2
            have hm1 : (h.len + 1) % 2 ^ w = h.len + 1 := Nat.mod_eq_of_lt (by omega)
            simp only [vec__grow_or_fail, if_neg hlt, if_pos rfl, hm2, hm1] at hg
            cases hg
            simp [InvB]
            omega
        | false =>
            rw [grow_full_fail w junk h buf hlt] at hg
            cases hg
            simp [InvB]
            omega
  | freed => simp [vec__grow_or_fail] at hg

theorem reserve_preserves_inv {α : Type} {w : Nat} {allocOk : Bool} {junk : α}
    {K : Nat} {v v' : Vec α} {b : Bool} (hv : InvB w v = true)
    (hr : vec__reserve_or_fail w allocOk junk K v = some (v', b)) :
    InvB w v' = true := by
  have hpow : 0 < 2 ^ w := Nat.pos_pow_of_pos w (by norm_num)
  unfold vec__reserve_or_fail at hr
  by_cases hc : K % 2 ^ w = 0
  · simp only [hc, if_pos rfl] at hr
    cases hr
    exact hv
  · simp only [if_neg hc] at hr
    have hmlt : K % 2 ^ w < 2 ^ w := Nat.mod_lt _ hpow
    have hmpos : 0 < K % 2 ^ w := Nat.pos_of_ne_zero hc
    cases v with
    | null =>
        cases allocOk with
        | true =>
            simp only [if_pos rfl] at hr
            cases hr
            simp [InvB]
            omega
        | false => simp only [Bool.false_eq_true, if_neg] at hr; cases hr; rfl
    | alloc h buf =>
        rw [invB_alloc_iff] at hv
        obtain ⟨hlc, hpos, hcw⟩ := hv
        by_cases hgt : K % 2 ^ w > h.cap
        · cases allocOk with
          | true =>
              simp only [if_pos hgt, if_pos rfl] at hr
              cases hr
              simp [InvB]
              omega
          | false =>
              simp only [if_pos hgt, Bool.false_eq_true, if_neg] at hr
              cases hr
              rw [invB_alloc_iff]
              exact ⟨hlc, hpos, hcw⟩
        · simp only [if_neg hgt] at hr
          cases hr
          rw [invB_alloc_iff]
          exact ⟨hlc, hpos, hcw⟩
    | freed => simp at hr

theorem push_state_inv {α : Type} {w : Nat} {ok : Bool} {junk x : α} {v v2 : Vec α}
    (hw : 1 ≤ w) (hv : InvB w v = true) (hno : growNoOverflowB w v = true)
    (hp : vec_push w ok junk x v = some v2) : InvB w v2 = true := by
  unfold vec_push at hp
  cases hg : vec__grow_or_fail w ok junk v with
  | none => rw [hg] at hp; simp at hp
  | some p =>
      obtain ⟨v1, b⟩ := p
      rw [hg] at hp
      have hinv1 := grow_preserves_inv hw hv hno hg
      cases b with
      | false => simp at hp
      | true =>
          cases v1 with
          | null => simp at hp
          | freed => simp at hp
          | alloc h buf =>
              dsimp only at hp
              cases hm : memWrite buf (size_sub_one w h.len) x with
              | none => rw [hm] at hp; simp at hp
              | some buf2 =>
                  rw [hm] at hp
                  simp only [Option.some.injEq] at hp
                  subst hp
                  rw [invB_alloc_iff]
                  exact invB_alloc_iff.mp hinv1

theorem try_push_state_inv {α : Type} {w : Nat} {ok : Bool} {junk x : α}
    {errno e2 : Nat} {v v2 : Vec α} (hw : 1 ≤ w) (hv : InvB w v = true)
    (hno : growNoOverflowB w v = true)
    (hp : vec_try_push w ok junk x errno v = some (e2, v2)) : InvB w v2 = true := by
  unfold vec_try_push at hp
  cases hg : vec__grow_or_fail w ok junk v with
  | none => rw [hg] at hp; simp at hp
  | some p =>
      obtain ⟨v1, b⟩ := p
      rw [hg] at hp
      have hinv1 := grow_preserves_inv hw hv hno hg
      simp only at hp
      by_cases he : (if b = true then errno else ENOMEM) ≠ ENOMEM
      · rw [if_pos he] at hp
        cases v1 with
        | null => simp at hp
        | freed => simp at hp
        | alloc h buf =>
            dsimp only at hp
            cases hm : memWrite buf (size_sub_one w h.len) x with
            | none => rw [hm] at hp; simp at hp
            | some buf2 =>
                rw [hm] at hp
                simp only [Prod.mk.injEq, Option.some.injEq] at hp
                obtain ⟨-, hp2⟩ := hp
                subst hp2
                rw [invB_alloc_iff]
                exact invB_alloc_iff.mp hinv1
      · rw [if_neg he] at hp
        simp only [Prod.mk.injEq, Option.some.injEq] at hp
        obtain ⟨-, hp2⟩ := hp
        subst hp2
        exact hinv1

theorem emplace_state_inv {α : Type} {w : Nat} {ok : Bool} {junk : α} {i : Nat}
    {v v2 : Vec α} (hw : 1 ≤ w) (hv : InvB w v = true)
    (hno : growNoOverflowB w v = true)
    (hp : vec_emplace w ok junk v = some (i, v2)) : InvB w v2 = true := by
  unfold vec_emplace at hp
  cases hg : vec__grow_or_fail w ok junk v with
  | none => rw [hg] at hp; simp at hp
  | some p =>
      obtain ⟨v1, b⟩ := p
      rw [hg] at hp
      have hinv1 := grow_preserves_inv hw hv hno hg
      cases b with
      | false => simp at hp
      | true =>
          cases v1 with
          | null => simp at hp
          | freed => simp at hp
          | alloc h buf =>
              simp only [Prod.mk.injEq, Option.some.injEq] at hp
              obtain ⟨-, hp2⟩ := hp
              subst hp2
              exact hinv1

theorem try_emplace_state_inv {α : Type} {w : Nat} {ok : Bool} {junk : α}
    {errno e2 : Nat} {r : Option Nat} {v v2 : Vec α} (hw : 1 ≤ w)
    (hv : InvB w v = true) (hno : growNoOverflowB w v = true)
    (hp : vec_try_emplace w ok junk errno v = some (e2, v2, r)) : InvB w v2 = true := by
  unfold vec_try_emplace at hp
  cases hg : vec__grow_or_fail w ok junk v with
  | none => rw [hg] at hp; simp at hp
  | some p =>
      obtain ⟨v1, b⟩ := p
      rw [hg] at hp
      have hinv1 := grow_preserves_inv hw hv hno hg
      simp only at hp
      cases v1 with
      | alloc h buf =>
          dsimp only at hp
          simp only [Prod.mk.injEq, Option.some.injEq] at hp
          obtain ⟨-, hp2, -⟩ := hp
          subst hp2
          exact hinv1
      | null =>
          dsimp only at hp
          by_cases he : (if b = true then errno else ENOMEM) ≠ ENOMEM
          · rw [if_pos he] at hp; simp at hp
          · rw [if_neg he] at hp
            simp only [Prod.mk.injEq, Option.some.injEq] at hp
            obtain ⟨-, hp2, -⟩ := hp
            subst hp2
            exact hinv1
      | freed =>
          dsimp only at hp
          by_cases he : (if b = true then errno else ENOMEM) ≠ ENOMEM
          · rw [if_pos he] at hp; simp at hp
          · rw [if_neg he] at hp
            simp only [Prod.mk.injEq, Option.some.injEq] at hp
            obtain ⟨-, hp2, -⟩ := hp
            subst hp2
            exact hinv1

theorem reserve_state_inv {α : Type} {w : Nat} {ok : Bool} {junk : α} {K : Nat}
    {v v2 : Vec α} (hv : InvB w v = true)
    (hp : vec_reserve w ok junk K v = some v2) : InvB w v2 = true := by
  unfold vec_reserve at hp
  cases hr : vec__reserve_or_fail w ok junk K v with
  | none => rw [hr] at hp; simp at hp
  | some p =>
      obtain ⟨v1, b⟩ := p
      rw [hr] at hp
      cases b with
      | false => simp at hp
      | true =>
          simp only [Option.some.injEq] at hp
          subst hp
          exact reserve_preserves_inv hv hr

theorem try_reserve_state_inv {α : Type} {w : Nat} {ok : Bool} {junk : α}
    {K errno e2 : Nat} {v v2 : Vec α} (hv : InvB w v = true)
    (hp : vec_try_reserve w ok junk K errno v = some (e2, v2)) : InvB w v2 = true := by
  unfold vec_try_reserve at hp
  cases hr : vec__reserve_or_fail w ok junk K v with
  | none => rw [hr] at hp; simp at hp
  | some p =>
      obtain ⟨v1, b⟩ := p
      rw [hr] at hp
      simp only [Prod.mk.injEq, Option.some.injEq] at hp
      obtain ⟨-, hp2⟩ := hp
      subst hp2
      exact reserve_preserves_inv hv hr

theorem pop_state_inv {α : Type} {w : Nat} {v v2 : Vec α} (hv : InvB w v = true)
    (hp : vec_pop v = some v2) : InvB w v2 = true := by
  cases v with
  | null => simp [vec_pop] at hp
  | freed => simp [vec_pop] at hp
  | alloc h buf =>
      rw [invB_alloc_iff] at hv
      unfold vec_pop at hp
      dsimp only at hp
      by_cases hl : 0 < h.len
      · rw [if_pos hl] at hp
        simp only [Option.some.injEq] at hp
        subst hp
        simp [InvB]
        omega
      · rw [if_neg hl] at hp; cases hp

theorem clear_state_inv {α : Type} {w : Nat} {v v2 : Vec α} (hv : InvB w v = true)
    (hp : vec_clear v = some v2) : InvB w v2 = true := by
  cases v with
  | null => simp [vec_clear] at hp; subst hp; rfl
  | freed => simp [vec_clear] at hp
  | alloc h buf =>
      rw [invB_alloc_iff] at hv
      simp only [vec_clear, Option.some.injEq] at hp
      subst hp
      simp [InvB]
      omega

theorem remove_swap_state_inv {α : Type} {w : Nat} {i : Nat} {v v2 : Vec α}
    (hv : InvB w v = true) (hp : vec_remove_swap_at i v = some v2) :
    InvB w v2 = true := by
  cases v with
  | null => simp [vec_remove_swap_at] at hp
  | freed => simp [vec_remove_swap_at] at hp
  | alloc h buf =>
      rw [invB_alloc_iff] at hv
      unfold vec_remove_swap_at at hp
      dsimp only at hp
      by_cases hl : i < h.len
      · rw [if_pos hl] at hp
        cases hrd : memRead buf (h.len - 1) with
        | none => rw [hrd] at hp; simp at hp
        | some last =>
            rw [hrd] at hp
            dsimp only at hp
            cases hwr : memWrite buf i last with
            | none => rw [hwr] at hp; simp at hp
            | some buf2 =>
                rw [hwr] at hp
                simp only [Option.some.injEq] at hp
                subst hp
                simp [InvB]
                omega
      · rw [if_neg hl] at hp; cases hp

theorem remove_shift_state_inv {α : Type} {w : Nat} {i : Nat} {v v2 : Vec α}
    (hv : InvB w v = true) (hp : vec_remove_shift_at i v = some v2) :
    InvB w v2 = true := by
  cases v with
  | null => simp [vec_remove_shift_at] at hp
  | freed => simp [vec_remove_shift_at] at hp
  | alloc h buf =>
      rw [invB_alloc_iff] at hv
      unfold vec_remove_shift_at at hp
      dsimp only at hp
      by_cases hl : i < h.len
      · rw [if_pos hl] at hp
        cases hsh : shiftLoop buf i (h.len - 1) with
        | none => rw [hsh] at hp; simp at hp
        | some buf2 =>
            rw [hsh] at hp
            simp only [Option.some.injEq] at hp
            subst hp
            simp [InvB]
            omega
      · rw [if_neg hl] at hp; cases hp

theorem deinit_state_inv {α : Type} {w : Nat} {v v2 : Vec α}
    (hp : vec_deinit v = some v2) : InvB w v2 = true := by
  cases v with
  | null => simp [vec_deinit] at hp; subst hp; rfl
  | freed => simp [vec_deinit] at hp
  | alloc h buf => simp [vec_deinit] at hp; subst hp; rfl

theorem step_preserves_inv {α : Type} {w : Nat} {junk : α} {m m' : Mach α}
    {op : VecOp α} (hw : 1 ≤ w) (hv : InvB w m.vec = true)
    (hno : noOverflowStep w m.vec op = true) (hs : step w junk m op = some m') :
    InvB w m'.vec = true := by
  cases op with
  | init =>
      simp only [step, Option.some.injEq] at hs
      subst hs
      rfl
  | push ok x =>
      simp only [step, Option.map_eq_some'] at hs
      obtain ⟨v2, hp, hb⟩ := hs
      subst hb
      exact push_state_inv hw hv hno hp
  | try_push ok x =>
      simp only [step, Option.map_eq_some'] at hs
      obtain ⟨p, hp, hb⟩ := hs
      subst hb
      obtain ⟨e2, v2⟩ := p
      exact try_push_state_inv hw hv hno hp
  | emplace ok =>
      simp only [step, Option.map_eq_some'] at hs
      obtain ⟨p, hp, hb⟩ := hs
      subst hb
      obtain ⟨i, v2⟩ := p
      exact emplace_state_inv hw hv hno hp
  | try_emplace ok =>
      simp only [step, Option.map_eq_some'] at hs
      obtain ⟨p, hp, hb⟩ := hs
      subst hb
      obtain ⟨e2, v2, r⟩ := p
      exact try_emplace_state_inv hw hv hno hp
  | reserve ok k =>
      simp only [step, Option.map_eq_some'] at hs
      obtain ⟨v2, hp, hb⟩ := hs
      subst hb
      exact reserve_state_inv hv hp
  | try_reserve ok k =>
      simp only [step, Option.map_eq_some'] at hs
      obtain ⟨p, hp, hb⟩ := hs
      subst hb
      obtain ⟨e2, v2⟩ := p
      exact try_reserve_state_inv hv hp
  | pop =>
      simp only [step, Option.map_eq_some'] at hs
      obtain ⟨v2, hp, hb⟩ := hs
      subst hb
      exact pop_state_inv hv hp
  | clear =>
      simp only [step, Option.map_eq_some'] at hs
      obtain ⟨v2, hp, hb⟩ := hs
      subst hb
      exact clear_state_inv hv hp
  | remove_swap_at i =>
      simp only [step, Option.map_eq_some'] at hs
      obtain ⟨v2, hp, hb⟩ := hs
      subst hb
      exact remove_swap_state_inv hv hp
  | remove_shift_at i =>
      simp only [step, Option.map_eq_some'] at hs
      obtain ⟨v2, hp, hb⟩ := hs
      subst hb
      exact remove_shift_state_inv hv hp
  | deinit =>
      simp only [step, Option.map_eq_some'] at hs
      obtain ⟨v2, hp, hb⟩ := hs
      subst hb
      exact deinit_state_inv hp

theorem runStates_cons_eq {α : Type} {w : Nat} {junk : α} {m m1 : Mach α}
    {op : VecOp α} {rest : List (VecOp α)} (hs : step w junk m op = some m1) :
    runStates w junk m (op :: rest) = m1 :: runStates w junk m1 rest := by
  conv_lhs => rw [runStates]
  rw [hs]

theorem runStates_inv {α : Type} (w : Nat) (junk : α) (hw : 1 ≤ w) :
    ∀ (ops : List (VecOp α)) (m : Mach α), InvB w m.vec = true →
    (∀ p ∈ (m :: runStates w junk m ops).zip ops, noOverflowStep w p.1.vec p.2 = true) →
    ∀ m' ∈ runStates w junk m ops, InvB w m'.vec = true := by
  intro ops
  induction ops with
  | nil =>
      intro m _ _ m' hm'
      simp [runStates] at hm'
  | cons op rest ih =>
      intro m hm hno m' hm'
      cases hs : step w junk m op with
      | none =>
          rw [runStates, hs] at hm'
          simp at hm'
      | some m1 =>
          rw [runStates_cons_eq hs] at hm' hno
          rw [List.zip_cons_cons] at hno
          have hno0 : noOverflowStep w m.vec op = true :=
            hno (m, op) (List.mem_cons_self _ _)
          have hm1 : InvB w m1.vec = true := step_preserves_inv hw hm hno0 hs
          rcases List.mem_cons.mp hm' with rfl | hrest
          · exact hm1
          · exact ih m1 hm1 (fun p hp => hno p (List.mem_cons_of_mem _ hp)) m' hrest

theorem invB_claim {α : Type} {w : Nat} {v : Vec α} (hv : InvB w v = true) :
    (∀ l c, vec_len v = some l → vec_cap v = some c → l ≤ c) ∧
    (vec_cap v = some 0 ↔ v = Vec.null) := by
  cases v with
  | null =>
      refine ⟨fun l c hl hc => ?_, by simp [vec_cap]⟩
      simp only [vec_len, Option.some.injEq] at hl
      simp only [vec_cap, Option.some.injEq] at hc
      omega
  | alloc h buf =>
      rw [invB_alloc_iff] at hv
      constructor
      · intro l c hl hc
        simp only [vec_len, Option.some.injEq] at hl
        simp only [vec_cap, Option.some.injEq] at hc
        omega
      · constructor
        · intro hc
          simp only [vec_cap, Option.some.injEq] at hc
          omega
        · intro h2
          cases h2
  | freed =>
      refine ⟨fun l c hl hc => ?_, ?_⟩
      · simp [vec_len] at hl
      · simp [vec_cap]

/-! Run lemmas: executing sequences of appends. -/

theorem runFrom_cons {α : Type} (w : Nat) (junk : α) (m : Mach α) (op : VecOp α)
    (rest : List (VecOp α)) :
    runFrom w junk m (op :: rest) =
      (step w junk m op).bind fun m' => runFrom w junk m' rest := rfl

theorem runFrom_append {α : Type} (w : Nat) (junk : α) :
    ∀ (l1 l2 : List (VecOp α)) (m : Mach α),
      runFrom w junk m (l1 ++ l2) =
        (runFrom w junk m l1).bind fun m' => runFrom w junk m' l2
  | [], _, _ => rfl
  | op :: rest, l2, m => by
      simp only [List.cons_append, runFrom_cons]
      cases step w junk m op with
      | none => rfl
      | some m1 =>
          simp only [Option.some_bind]
          exact runFrom_append w junk rest l2 m1

theorem runFrom_cons_some {α : Type} (w : Nat) (junk : α) {m m1 : Mach α}
    {op : VecOp α} {rest : List (VecOp α)} (hs : step w junk m op = some m1) :
    runFrom w junk m (op :: rest) = runFrom w junk m1 rest := by
  rw [runFrom_cons, hs]
  rfl

theorem runFrom_append_some {α : Type} (w : Nat) (junk : α) {m m1 : Mach α}
    (l1 l2 : List (VecOp α)) (h1 : runFrom w junk m l1 = some m1) :
    runFrom w junk m (l1 ++ l2) = runFrom w junk m1 l2 := by
  rw [runFrom_append, h1]
  rfl

theorem runFrom_singleton_none {α : Type} (w : Nat) (junk : α) {m : Mach α}
    {op : VecOp α} (hs : step w junk m op = none) :
    runFrom w junk m [op] = none := by
  rw [runFrom_cons, hs]
  rfl

theorem runFrom_singleton_some {α : Type} (w : Nat) (junk : α) {m m1 : Mach α}
    {op : VecOp α} (hs : step w junk m op = some m1) :
    runFrom w junk m [op] = some m1 := by
  rw [runFrom_cons, hs]
  rfl

theorem step_emplace_fast {α : Type} (w : Nat) (junk : α) (e k c : Nat)
    (buf : List α) (hkc : k < c) (hcw : c < 2 ^ w) :
    step w junk ⟨e, .alloc ⟨k, c⟩ buf⟩ (VecOp.emplace true) =
      some ⟨e, .alloc ⟨k + 1, c⟩ buf⟩ := by
  simp only [step, vec_emplace]
  rw [grow_fast w true junk ⟨k, c⟩ buf hkc hcw]
  rfl

theorem run_emplaceN {α : Type} (w : Nat) (junk : α) (e : Nat) :
    ∀ (n k c : Nat) (buf : List α), k + n ≤ c → c < 2 ^ w →
      runFrom w junk ⟨e, .alloc ⟨k, c⟩ buf⟩ (List.replicate n (VecOp.emplace true)) =
        some ⟨e, .alloc ⟨k + n, c⟩ buf⟩
  | 0, k, c, buf, _, _ => rfl
  | n + 1, k, c, buf, hkn, hcw => by
      rw [List.replicate_succ, runFrom_cons,
        step_emplace_fast w junk e k c buf (by omega) hcw]
      simp only [Option.some_bind]
      rw [run_emplaceN w junk e n (k + 1) c buf (by omega) hcw]
      have he : k + 1 + n = k + (n + 1) := by omega
      rw [he]

theorem step_push_fast {α : Type} (w : Nat) (junk x : α) (e k c : Nat)
    (buf : List α) (hkc : k < c) (hcw : c < 2 ^ w) (hbl : k < buf.length) :
    step w junk ⟨e, .alloc ⟨k, c⟩ buf⟩ (VecOp.push true x) =
      some ⟨e, .alloc ⟨k + 1, c⟩ (buf.set k x)⟩ := by
  simp only [step, vec_push]
  rw [grow_fast w true junk ⟨k, c⟩ buf hkc hcw]
  dsimp only
  rw [size_sub_one_eq (by omega) (by omega : k + 1 < 2 ^ w)]
  simp [memWrite, hbl]

theorem step_push_full {α : Type} (w : Nat) (junk x : α) (e c : Nat)
    (buf : List α) (hc : 0 < c) (hno : c * 2 < 2 ^ w) (hbl : buf.length = c) :
    step w junk ⟨e, .alloc ⟨c, c⟩ buf⟩ (VecOp.push true x) =
      some ⟨e, .alloc ⟨c + 1, c * 2⟩ ((buf ++ List.replicate c junk).set c x)⟩ := by
  simp only [step, vec_push]
  rw [grow_full_ok w junk ⟨c, c⟩ buf rfl hc hno hbl]
  dsimp only
  rw [size_sub_one_eq (by omega) (by omega : c + 1 < 2 ^ w)]
  have h0 : 0 < buf.length := by omega
  simp [memWrite, h0]

theorem pushes_fill {α : Type} (w : Nat) (junk x : α) (e : Nat) :
    ∀ (n k c : Nat) (buf : List α), k + n ≤ c → c < 2 ^ w → buf.length = c →
      ∃ buf', runFrom w junk ⟨e, .alloc ⟨k, c⟩ buf⟩
          (List.replicate n (VecOp.push true x)) =
        some ⟨e, .alloc ⟨k + n, c⟩ buf'⟩ ∧ buf'.length = c
  | 0, k, c, buf, _, _, hbl => ⟨buf, rfl, hbl⟩
  | n + 1, k, c, buf, hkn, hcw, hbl => by
      rw [List.replicate_succ, runFrom_cons,
        step_push_fast w junk x e k c buf (by omega) hcw (by omega)]
      simp only [Option.some_bind]
      obtain ⟨buf', hrun, hlen⟩ :=
        pushes_fill w junk x e n (k + 1) c (buf.set k x) (by omega) hcw
          (by simpa using hbl)
      refine ⟨buf', ?_, hlen⟩
      rw [hrun]
      have he : k + 1 + n = k + (n + 1) := by omega
      rw [he]

theorem pushes_block {α : Type} (w : Nat) (junk x : α) (e : Nat) (c : Nat)
    (buf : List α) (hc : 1 ≤ c) (hno : c * 2 < 2 ^ w) (hbl : buf.length = c) :
    ∃ buf', runFrom w junk ⟨e, .alloc ⟨c, c⟩ buf⟩
        (List.replicate c (VecOp.push true x)) =
      some ⟨e, .alloc ⟨c * 2, c * 2⟩ buf'⟩ ∧ buf'.length = c * 2 := by
  obtain ⟨c', rfl⟩ : ∃ c', c = c' + 1 := ⟨c - 1, by omega⟩
  rw [List.replicate_succ, runFrom_cons,
    step_push_full w junk x e (c' + 1) buf hc hno hbl]
  simp only [Option.some_bind]
  have hbl2 : ((buf ++ List.replicate (c' + 1) junk).set (c' + 1) x).length =
      (c' + 1) * 2 := by
    simp [hbl]
    omega
  obtain ⟨buf', hrun, hlen⟩ :=
    pushes_fill w junk x e c' ((c' + 1) + 1) ((c' + 1) * 2)
      ((buf ++ List.replicate (c' + 1) junk).set (c' + 1) x) (by omega)
      (by omega) hbl2
  refine ⟨buf', ?_, hlen⟩
  rw [hrun]
  have he : c' + 1 + 1 + c' = (c' + 1) * 2 := by omega
  rw [he]

theorem pushes_pow {α : Type} (w : Nat) (junk x : α) (e : Nat) :
    ∀ (j : Nat), j < w → ∀ (buf : List α), buf.length = 1 →
      ∃ buf', runFrom w junk ⟨e, .alloc ⟨1, 1⟩ buf⟩
          (List.replicate (2 ^ j - 1) (VecOp.push true x)) =
        some ⟨e, .alloc ⟨2 ^ j, 2 ^ j⟩ buf'⟩ ∧ buf'.length = 2 ^ j
  | 0, _, buf, hbl => ⟨buf, rfl, hbl⟩
  | j + 1, hj, buf, hbl => by
      have hsplit : 2 ^ (j + 1) - 1 = (2 ^ j - 1) + 2 ^ j := by
        have hp : 1 ≤ 2 ^ j := Nat.one_le_two_pow
        rw [pow_succ]
        omega
      rw [hsplit, List.replicate_add, runFrom_append]
      obtain ⟨buf1, hrun1, hlen1⟩ := pushes_pow w junk x e j (by omega) buf hbl
      rw [hrun1]
      simp only [Option.some_bind]
      have hno : 2 ^ j * 2 < 2 ^ w := by
        rw [← pow_succ]
        exact Nat.pow_lt_pow_right (by norm_num) hj
      obtain ⟨buf2, hrun2, hlen2⟩ :=
        pushes_block w junk x e (2 ^ j) buf1 Nat.one_le_two_pow hno hlen1
      refine ⟨buf2, ?_, by rw [← pow_succ] at hlen2; exact hlen2⟩
      rw [hrun2, ← pow_succ]

theorem pushes_spec {α : Type} (w : Nat) (junk : α) (e : Nat) (hw : 1 ≤ w) :
    ∀ (vs : List α) (k c : Nat) (buf : List α), 1 ≤ k → k ≤ c → c ≤ 2 * k →
      buf.length = c → k + vs.length ≤ 2 ^ (w - 1) →
      ∃ c' buf', runFrom w junk ⟨e, .alloc ⟨k, c⟩ buf⟩
          (vs.map (VecOp.push true)) =
          some ⟨e, .alloc ⟨k + vs.length, c'⟩ buf'⟩ ∧
        buf'.length = c' ∧ k + vs.length ≤ c' ∧ c' ≤ 2 * (k + vs.length) ∧
        buf'.take (k + vs.length) = buf.take k ++ vs
  | [], k, c, buf, _, h2, h3, hbl, _ => by
      refine ⟨c, buf, by simp [runFrom], hbl, by simp only [List.length_nil]; omega,
        by simp only [List.length_nil]; omega, by simp⟩
  | x :: rest, k, c, buf, h1, h2, h3, hbl, hP => by
      have hsplit : 2 ^ w = 2 ^ (w - 1) * 2 := two_pow_split hw
      simp only [List.length_cons] at hP
      by_cases hkc : k < c
      · rw [List.map_cons, runFrom_cons,
          step_push_fast w junk x e k c buf hkc (by omega) (by omega)]
        simp only [Option.some_bind]
        obtain ⟨c', buf', hrun, hbl', hc1, hc2, htake⟩ :=
          pushes_spec w junk e hw rest (k + 1) c (buf.set k x) (by omega)
            (by omega) (by omega) (by simpa using hbl) (by omega)
        refine ⟨c', buf', ?_, hbl', by simp only [List.length_cons]; omega,
          by simp only [List.length_cons]; omega, ?_⟩
        · rw [hrun]
          have he : k + 1 + rest.length = k + (x :: rest).length := by
            simp only [List.length_cons]
            omega
          rw [he]
        · have he : k + (x :: rest).length = (k + 1) + rest.length := by
            simp only [List.length_cons]
            omega
          rw [he, htake, list_take_set_concat buf k x (by omega),
            List.append_assoc]
          rfl
      · have hck : c = k := by omega
        subst hck
        rw [List.map_cons, runFrom_cons,
          step_push_full w junk x e c buf (by omega) (by omega) hbl]
        simp only [Option.some_bind]
        have hbl2 : ((buf ++ List.replicate c junk).set c x).length = c * 2 := by
          simp [hbl]
          omega
        obtain ⟨c', buf', hrun, hbl', hc1, hc2, htake⟩ :=
          pushes_spec w junk e hw rest (c + 1) (c * 2)
            ((buf ++ List.replicate c junk).set c x) (by omega) (by omega)
            (by omega) hbl2 (by omega)
        refine ⟨c', buf', ?_, hbl', by simp only [List.length_cons]; omega,
          by simp only [List.length_cons]; omega, ?_⟩
        · rw [hrun]
          have he : c + 1 + rest.length = c + (x :: rest).length := by
            simp only [List.length_cons]
            omega
          rw [he]
        · have he : c + (x :: rest).length = (c + 1) + rest.length := by
            simp only [List.length_cons]
            omega
          rw [he, htake,
            list_take_set_concat (buf ++ List.replicate c junk) c x
              (by simp [hbl]; omega),
            list_take_append_left buf (List.replicate c junk) c (by omega),
            List.append_assoc]
          rfl

theorem shiftLoop_spec {α : Type} :
    ∀ (n : Nat) (buf : List α) (i stop : Nat), stop - i = n → stop < buf.length →
      ∃ buf', shiftLoop buf i stop = some buf' ∧ buf'.length = buf.length ∧
        (∀ j, j < i ∨ stop ≤ j → buf'.get? j = buf.get? j) ∧
        (∀ j, i ≤ j → j < stop → buf'.get? j = buf.get? (j + 1))
  | 0, buf, i, stop, hn, _ => by
      refine ⟨buf, ?_, rfl, fun j _ => rfl, fun j hj1 hj2 => by omega⟩
      unfold shiftLoop
      rw [dif_neg (by omega)]
  | n + 1, buf, i, stop, hn, hlt => by
      have hlt2 : i < stop := by omega
      have hi1 : i + 1 < buf.length := by omega
      obtain ⟨x, hx⟩ := list_get_some_of_lt buf (i + 1) hi1
      obtain ⟨buf', hrun, hlen, hlow, hmid⟩ :=
        shiftLoop_spec n (buf.set i x) (i + 1) stop (by omega) (by simpa using hlt)
      have hlen2 : buf'.length = buf.length := by simpa using hlen
      refine ⟨buf', ?_, hlen2, ?_, ?_⟩
      · unfold shiftLoop
        rw [dif_pos hlt2, hx]
        exact hrun
      · intro j hj
        rcases hj with hj | hj
        · rw [hlow j (Or.inl (by omega))]
          exact list_get_set_ne buf i j x (by omega)
        · rw [hlow j (Or.inr hj)]
          exact list_get_set_ne buf i j x (by omega)
      · intro j hj1 hj2
        by_cases hji : j = i
        · subst hji
          rw [hlow j (Or.inl (by omega)), list_get_set_same buf j x (by omega), hx]
        · rw [hmid j (by omega) hj2]
          exact list_get_set_ne buf i (j + 1) x (by omega)

/-! Claim C1: release semantics. -/

/-- C1 counterexample: `vec_deinit` on an allocated one-element array frees
the allocation but leaves the handle dangling (`freed`), which is not the
null/unallocated state: the state differs from a freshly initialized one,
its length and capacity are not readable (undefined behaviour, not 0), and
an immediate second `vec_deinit` is a double free (undefined behaviour),
not a no-op. -/
theorem deinit_leaves_handle_counterexample :
    vec_deinit (Vec.alloc ⟨1, 1⟩ [(10 : Nat)]) = some Vec.freed ∧
    (Vec.freed : Vec Nat) ≠ Vec.null ∧
    vec_len (Vec.freed : Vec Nat) = none ∧
    vec_cap (Vec.freed : Vec Nat) = none ∧
    vec_deinit (Vec.freed : Vec Nat) = none := by decide

/-- C1 amended: `vec_deinit` frees the backing allocation (and
`vec_deinit_with` first passes the live elements, in index order, to the
destructor), and on a null handle both are no-ops; but neither resets the
handle, so an allocated array becomes a dangling `freed` handle rather than
returning to the null/unallocated state, and release may not be called
again without re-initializing. -/
theorem deinit_frees_but_keeps_handle {α : Type} (h : vec__header_t)
    (buf : List α) (hlen : h.len ≤ buf.length) :
    vec_deinit (Vec.alloc h buf) = some Vec.freed ∧
    vec_deinit (Vec.null : Vec α) = some Vec.null ∧
    vec_deinit_with (Vec.alloc h buf) = some (buf.take h.len, Vec.freed) ∧
    vec_deinit_with (Vec.null : Vec α) = some ([], Vec.null) := by
  refine ⟨rfl, rfl, ?_, rfl⟩
  simp [vec_deinit_with, hlen]

/-- Witness for the amended C1 at a concrete one-element array. -/
theorem deinit_frees_but_keeps_handle_witness :
    ((1 : Nat) ≤ 1) ∧
    (vec_deinit (Vec.alloc ⟨1, 1⟩ [(10 : Nat)]) = some Vec.freed ∧
     vec_deinit (Vec.null : Vec Nat) = some Vec.null ∧
     vec_deinit_with (Vec.alloc ⟨1, 1⟩ [(10 : Nat)]) =
       some ([10].take 1, Vec.freed) ∧
     vec_deinit_with (Vec.null : Vec Nat) = some ([], Vec.null)) :=
  ⟨by decide, deinit_frees_but_keeps_handle ⟨1, 1⟩ [10] (by decide)⟩

/-! Claim C8: swap-removal. -/

/-- C8: swap-removal at a valid index decrements the length, keeps the
capacity, and copies the former last element into the removed slot, leaving
every other remaining slot unchanged (so it is a no-op copy when the removed
index was already the last). -/
theorem remove_swap_at_spec {α : Type} (i : Nat) (h : vec__header_t)
    (buf : List α) (hi : i < h.len) (hlc : h.len ≤ h.cap)
    (hbl : buf.length = h.cap) :
    ∃ v', vec_remove_swap_at i (Vec.alloc h buf) = some v' ∧
      vec_len v' = some (h.len - 1) ∧ vec_cap v' = some h.cap ∧
      ∀ j, j < h.len - 1 →
        vec_index j v' = if j = i then vec_index (h.len - 1) (Vec.alloc h buf)
          else vec_index j (Vec.alloc h buf) := by
  have hl1 : h.len - 1 < buf.length := by omega
  obtain ⟨last, hlast⟩ := list_get_some_of_lt buf (h.len - 1) hl1
  have hwr : i < buf.length := by omega
  refine ⟨Vec.alloc ⟨h.len - 1, h.cap⟩ (buf.set i last), ?_, rfl, rfl, ?_⟩
  · unfold vec_remove_swap_at
    dsimp only
    rw [if_pos hi]
    unfold memRead
    rw [hlast]
    dsimp only
    unfold memWrite
    rw [if_pos hwr]
  · intro j hj
    by_cases hji : j = i
    · subst hji
      rw [if_pos rfl]
      show (buf.set j last).get? j = vec_index (h.len - 1) (Vec.alloc h buf)
      rw [list_get_set_same buf j last (by omega)]
      exact hlast.symm
    · rw [if_neg hji]
      show (buf.set i last).get? j = vec_index j (Vec.alloc h buf)
      exact list_get_set_ne buf i j last fun e => hji e.symm

/-- Witness for C8 at the documented example: `[10, 20, 30, 40]`,
swap-remove at index 1, giving `[10, 40, 30]` with length 3. -/
theorem remove_swap_at_spec_witness :
    ((1 : Nat) < 4 ∧ (4 : Nat) ≤ 4 ∧ [(10 : Nat), 20, 30, 40].length = 4) ∧
    (∃ v', vec_remove_swap_at 1 (Vec.alloc ⟨4, 4⟩ [(10 : Nat), 20, 30, 40]) =
        some v' ∧
      vec_len v' = some 3 ∧ vec_cap v' = some 4 ∧
      ∀ j, j < 3 →
        vec_index j v' =
          if j = 1 then vec_index 3 (Vec.alloc ⟨4, 4⟩ [(10 : Nat), 20, 30, 40])
          else vec_index j (Vec.alloc ⟨4, 4⟩ [(10 : Nat), 20, 30, 40])) :=
  ⟨⟨by decide, by decide, by decide⟩,
    remove_swap_at_spec 1 ⟨4, 4⟩ [10, 20, 30, 40] (by decide) (by decide)
      (by decide)⟩

/-! Claim C9: shift-removal. -/

/-- C9: shift-removal at a valid index decrements the length, keeps the
capacity, and moves every subsequent element one slot toward the removed
index, preserving the relative order of the remaining elements. -/
theorem remove_shift_at_spec {α : Type} (i : Nat) (h : vec__header_t)
    (buf : List α) (hi : i < h.len) (hlc : h.len ≤ h.cap)
    (hbl : buf.length = h.cap) :
    ∃ v', vec_remove_shift_at i (Vec.alloc h buf) = some v' ∧
      vec_len v' = some (h.len - 1) ∧ vec_cap v' = some h.cap ∧
      ∀ j, j < h.len - 1 →
        vec_index j v' = if j < i then vec_index j (Vec.alloc h buf)
          else vec_index (j + 1) (Vec.alloc h buf) := by
  have hstop : h.len - 1 < buf.length := by omega
  obtain ⟨buf', hrun, hlen, hlow, hmid⟩ :=
    shiftLoop_spec (h.len - 1 - i) buf i (h.len - 1) rfl hstop
  refine ⟨Vec.alloc ⟨h.len - 1, h.cap⟩ buf', ?_, rfl, rfl, ?_⟩
  · unfold vec_remove_shift_at
    dsimp only
    rw [if_pos hi, hrun]
  · intro j hj
    by_cases hji : j < i
    · rw [if_pos hji]
      exact hlow j (Or.inl hji)
    · rw [if_neg hji]
      exact hmid j (by omega) hj

/-- Witness for C9 at the documented example: `[10, 20, 30, 40]`,
shift-remove at index 1, giving `[10, 30, 40]` with length 3. -/
theorem remove_shift_at_spec_witness :
    ((1 : Nat) < 4 ∧ (4 : Nat) ≤ 4 ∧ [(10 : Nat), 20, 30, 40].length = 4) ∧
    (∃ v', vec_remove_shift_at 1 (Vec.alloc ⟨4, 4⟩ [(10 : Nat), 20, 30, 40]) =
        some v' ∧
      vec_len v' = some 3 ∧ vec_cap v' = some 4 ∧
      ∀ j, j < 3 →
        vec_index j v' =
          if j < 1 then vec_index j (Vec.alloc ⟨4, 4⟩ [(10 : Nat), 20, 30, 40])
          else vec_index (j + 1) (Vec.alloc ⟨4, 4⟩ [(10 : Nat), 20, 30, 40])) :=
  ⟨⟨by decide, by decide, by decide⟩,
    remove_shift_at_spec 1 ⟨4, 4⟩ [10, 20, 30, 40] (by decide) (by decide)
      (by decide)⟩

/-! Claim C7: explicit reservation. -/

/-- C7: a successful `vec_reserve` is a no-op for a requested capacity of 0;
on an unallocated array it allocates exactly the requested capacity `K` with
length 0; on an allocated array it reallocates to exactly `K` (keeping the
length) when `K` exceeds the current capacity, and is an exact no-op when
`K` is at most the current capacity — so capacity never shrinks through
reservation. -/
theorem reserve_exact {α : Type} (w : Nat) (junk : α) (K : Nat)
    (h : vec__header_t) (buf : List α) (v : Vec α) (hK : K < 2 ^ w) :
    (vec_reserve w true junk 0 v = some v) ∧
    (K ≠ 0 → ∃ v', vec_reserve w true junk K (Vec.null : Vec α) = some v' ∧
      vec_cap v' = some K ∧ vec_len v' = some 0) ∧
    (h.cap < K → ∃ v', vec_reserve w true junk K (Vec.alloc h buf) = some v' ∧
      vec_cap v' = some K ∧ vec_len v' = some h.len) ∧
    (K ≤ h.cap → vec_reserve w true junk K (Vec.alloc h buf) =
      some (Vec.alloc h buf)) := by
  have hmod : K % 2 ^ w = K := Nat.mod_eq_of_lt hK
  refine ⟨?_, ?_, ?_, ?_⟩
  · simp [vec_reserve, vec__reserve_or_fail]
  · intro hK0
    refine ⟨Vec.alloc ⟨0, K⟩ (List.replicate K junk), ?_, rfl, rfl⟩
    simp [vec_reserve, vec__reserve_or_fail, hmod, hK0]
  · intro hlt
    refine ⟨Vec.alloc ⟨h.len, K⟩
        (buf.take K ++ List.replicate (K - buf.length) junk), ?_, rfl, rfl⟩
    have hK0 : ¬ K = 0 := by omega
    simp [vec_reserve, vec__reserve_or_fail, hmod, hK0, hlt]
  · intro hle
    by_cases hK0 : K = 0
    · subst hK0
      simp [vec_reserve, vec__reserve_or_fail]
    · have hngt : ¬ K > h.cap := by omega
      simp [vec_reserve, vec__reserve_or_fail, hmod, hK0, hngt]

/-- Witness for C7 at `w = 16`, `K = 5`, an allocated array of capacity 3
holding 2 elements. -/
theorem reserve_exact_witness :
    ((5 : Nat) < 2 ^ 16) ∧
    ((vec_reserve 16 true (0 : Nat) 0 (Vec.alloc ⟨2, 3⟩ [7, 8, 0]) =
        some (Vec.alloc ⟨2, 3⟩ [7, 8, 0])) ∧
     ((5 : Nat) ≠ 0 → ∃ v', vec_reserve 16 true (0 : Nat) 5 Vec.null = some v' ∧
       vec_cap v' = some 5 ∧ vec_len v' = some 0) ∧
     ((vec__header_t.mk 2 3).cap < 5 →
       ∃ v', vec_reserve 16 true (0 : Nat) 5 (Vec.alloc ⟨2, 3⟩ [7, 8, 0]) =
           some v' ∧
         vec_cap v' = some 5 ∧ vec_len v' = some (vec__header_t.mk 2 3).len) ∧
     (5 ≤ (vec__header_t.mk 2 3).cap →
       vec_reserve 16 true (0 : Nat) 5 (Vec.alloc ⟨2, 3⟩ [7, 8, 0]) =
         some (Vec.alloc ⟨2, 3⟩ [7, 8, 0]))) :=
  ⟨by decide, reserve_exact 16 0 5 ⟨2, 3⟩ [7, 8, 0] (Vec.alloc ⟨2, 3⟩ [7, 8, 0])
    (by decide)⟩

/-! Claim C6: capacity doubling on append. -/

/-- C6 counterexample: at `size_t` width 16, a successful append onto a full
array of capacity 32768 does not reallocate to capacity 65536; the unchecked
`cap * 2` wraps to 0. -/
theorem doubling_overflow_counterexample :
    vec__grow_or_fail 16 true (0 : Nat)
        (Vec.alloc ⟨32768, 32768⟩ (List.replicate 32768 0)) =
      some (Vec.alloc ⟨32769, 0⟩ [], true) ∧ (0 : Nat) ≠ 32768 * 2 := by
  constructor
  · norm_num [vec__grow_or_fail]
  · omega

/-- C6 amended: the first successful append on an unallocated array allocates
capacity exactly 1; a successful append onto a full array reallocates to
`(capacity * 2) % 2 ^ w`, which is exactly `capacity * 2` whenever that
product does not overflow `size_t`; and an append onto a non-full array
leaves the capacity unchanged (so from empty the capacities run
1, 2, 4, 8, ... while below `2 ^ (w - 1)`). -/
theorem grow_capacity_doubling {α : Type} (w : Nat) (junk : α)
    (h : vec__header_t) (buf : List α) (hw : 1 ≤ w) :
    (vec__grow_or_fail w true junk (Vec.null : Vec α) =
      some (Vec.alloc ⟨1, 1⟩ [junk], true)) ∧
    (h.len = h.cap →
      ∃ v', vec__grow_or_fail w true junk (Vec.alloc h buf) = some (v', true) ∧
        vec_cap v' = some ((h.cap * 2) % 2 ^ w) ∧
        (h.cap * 2 < 2 ^ w → vec_cap v' = some (h.cap * 2)) ∧
        vec_len v' = some ((h.len + 1) % 2 ^ w)) ∧
    (h.len < h.cap → h.cap < 2 ^ w →
      vec__grow_or_fail w true junk (Vec.alloc h buf) =
        some (Vec.alloc ⟨h.len + 1, h.cap⟩ buf, true)) := by
  refine ⟨grow_null_ok w junk, ?_, ?_⟩
  · intro hfull
    have hnlt : ¬ h.len < h.cap := by omega
    refine ⟨Vec.alloc ⟨(h.len + 1) % 2 ^ w, (h.cap * 2) % 2 ^ w⟩
        (buf.take ((h.cap * 2) % 2 ^ w) ++
          List.replicate ((h.cap * 2) % 2 ^ w - buf.length) junk),
      ?_, rfl, ?_, rfl⟩
    · simp [vec__grow_or_fail, hnlt]
    · intro hno
      rw [Nat.mod_eq_of_lt hno]
      rfl
  · intro hlt hcw
    exact grow_fast w true junk h buf hlt hcw

/-- Witness for the amended C6 at `w = 16`: a full array of capacity 4 and a
non-full array. -/
theorem grow_capacity_doubling_witness :
    ((1 : Nat) ≤ 16) ∧
    ((vec__grow_or_fail 16 true (0 : Nat) (Vec.null : Vec Nat) =
        some (Vec.alloc ⟨1, 1⟩ [0], true)) ∧
     ((vec__header_t.mk 4 4).len = (vec__header_t.mk 4 4).cap →
       ∃ v', vec__grow_or_fail 16 true (0 : Nat)
           (Vec.alloc ⟨4, 4⟩ [1, 2, 3, 4]) = some (v', true) ∧
         vec_cap v' = some (((vec__header_t.mk 4 4).cap * 2) % 2 ^ 16) ∧
         ((vec__header_t.mk 4 4).cap * 2 < 2 ^ 16 →
           vec_cap v' = some ((vec__header_t.mk 4 4).cap * 2)) ∧
         vec_len v' = some (((vec__header_t.mk 4 4).len + 1) % 2 ^ 16)) ∧
     ((vec__header_t.mk 4 4).len < (vec__header_t.mk 4 4).cap →
       (vec__header_t.mk 4 4).cap < 2 ^ 16 →
       vec__grow_or_fail 16 true (0 : Nat) (Vec.alloc ⟨4, 4⟩ [1, 2, 3, 4]) =
         some (Vec.alloc ⟨(vec__header_t.mk 4 4).len + 1,
           (vec__header_t.mk 4 4).cap⟩ [1, 2, 3, 4], true))) :=
  ⟨by decide, grow_capacity_doubling 16 0 ⟨4, 4⟩ [1, 2, 3, 4] (by decide)⟩

/-! Claim C10: capacity wraparound. -/

/-- C10: when an append grows a full array, the new capacity is
`(capacity * 2) % 2 ^ w` (unchecked `size_t` arithmetic); there is no
overflow guard, so for `capacity ≥ 2 ^ (w - 1)` the computed new capacity is
`capacity * 2 - 2 ^ w`, which is strictly smaller than the current length. -/
theorem grow_capacity_wraparound {α : Type} (w : Nat) (junk : α)
    (h : vec__header_t) (buf : List α) (hw : 1 ≤ w) (hfull : h.len = h.cap)
    (hlo : 2 ^ (w - 1) ≤ h.cap) (hhi : h.cap < 2 ^ w) :
    ∃ v', vec__grow_or_fail w true junk (Vec.alloc h buf) = some (v', true) ∧
      vec_cap v' = some ((h.cap * 2) % 2 ^ w) ∧
      (h.cap * 2) % 2 ^ w = h.cap * 2 - 2 ^ w ∧
      (h.cap * 2) % 2 ^ w < h.len := by
  have hsplit : 2 ^ w = 2 ^ (w - 1) * 2 := two_pow_split hw
  have hge : 2 ^ w ≤ h.cap * 2 := by omega
  have hmod : (h.cap * 2) % 2 ^ w = h.cap * 2 - 2 ^ w := by
    rw [Nat.mod_eq_sub_mod hge]
    exact Nat.mod_eq_of_lt (by omega)
  have hnlt : ¬ h.len < h.cap := by omega
  refine ⟨Vec.alloc ⟨(h.len + 1) % 2 ^ w, (h.cap * 2) % 2 ^ w⟩
      (buf.take ((h.cap * 2) % 2 ^ w) ++
        List.replicate ((h.cap * 2) % 2 ^ w - buf.length) junk),
    ?_, rfl, hmod, by omega⟩
  simp [vec__grow_or_fail, hnlt]

/-- Witness for C10 at `w = 16` and a full array of capacity 32768: the
doubled capacity wraps to 0, below the length 32768. -/
theorem grow_capacity_wraparound_witness :
    ((1 : Nat) ≤ 16 ∧ (vec__header_t.mk 32768 32768).len =
        (vec__header_t.mk 32768 32768).cap ∧
      2 ^ (16 - 1) ≤ (vec__header_t.mk 32768 32768).cap ∧
      (vec__header_t.mk 32768 32768).cap < 2 ^ 16) ∧
    (∃ v', vec__grow_or_fail 16 true (0 : Nat)
          (Vec.alloc ⟨32768, 32768⟩ []) = some (v', true) ∧
      vec_cap v' = some (((vec__header_t.mk 32768 32768).cap * 2) % 2 ^ 16) ∧
      ((vec__header_t.mk 32768 32768).cap * 2) % 2 ^ 16 =
        (vec__header_t.mk 32768 32768).cap * 2 - 2 ^ 16 ∧
      ((vec__header_t.mk 32768 32768).cap * 2) % 2 ^ 16 <
        (vec__header_t.mk 32768 32768).len) :=
  ⟨⟨by decide, by decide, by decide, by decide⟩,
    grow_capacity_wraparound 16 0 ⟨32768, 32768⟩ [] (by decide) (by decide)
      (by decide) (by decide)⟩

/-! Claim C3: fail-soft append. -/

theorem goodB_alloc_iff {α : Type} {w : Nat} {h : vec__header_t} {buf : List α} :
    GoodB w (Vec.alloc h buf) = true ↔
      h.len ≤ h.cap ∧ 0 < h.cap ∧ buf.length = h.cap ∧ h.cap < 2 ^ w := by
  simp [GoodB, and_assoc]

/-- C3 counterexample: if `errno` already equals `ENOMEM` when `vec_try_push`
is called, the growth succeeds (the length becomes 1) but the value 7 is
never written — the new slot keeps its junk content 0 — and `errno` still
reads `ENOMEM` as if the append had failed.  So it is not true that the value
is written in exactly the cases where growth succeeded. -/
theorem try_push_errno_preset_counterexample :
    vec_try_push 64 true (0 : Nat) 7 ENOMEM Vec.null =
      some (ENOMEM, Vec.alloc ⟨1, 1⟩ [0]) ∧
    vec_len (Vec.alloc ⟨1, 1⟩ [(0 : Nat)]) = some 1 ∧
    vec_index 0 (Vec.alloc ⟨1, 1⟩ [(0 : Nat)]) = some 0 ∧ (0 : Nat) ≠ 7 := by
  decide

/-- C3 amended: provided `errno` is not already `ENOMEM` at the call, the
fail-soft append either succeeds — exactly when the allocation oracle grants
the request or no allocation is needed — leaving `errno` untouched,
incrementing the length by 1, writing the value into the new last slot and
preserving all earlier elements; or the allocator failed, in which case the
array is left exactly unchanged and failure is reported through
`errno = ENOMEM`.  (The state must be well formed and, if full, its doubled
capacity must not overflow `size_t`.) -/
theorem try_push_fail_soft {α : Type} (w : Nat) (allocOk : Bool)
    (junk value : α) (errno n : Nat) (v : Vec α) (hw : 1 ≤ w)
    (hg : GoodB w v = true) (hno : growNoOverflowB w v = true)
    (he : errno ≠ ENOMEM) (hn : vec_len v = some n) :
    ((allocOk || fastB v) = true →
      ∃ v', vec_try_push w allocOk junk value errno v = some (errno, v') ∧
        vec_len v' = some (n + 1) ∧ vec_index n v' = some value ∧
        ∀ j, j < n → vec_index j v' = vec_index j v) ∧
    ((allocOk || fastB v) = false →
      vec_try_push w allocOk junk value errno v = some (ENOMEM, v)) := by
  cases v with
  | freed => simp [GoodB] at hg
  | null =>
      have hn0 : n = 0 := by
        simp only [vec_len, Option.some.injEq] at hn
        omega
      subst hn0
      constructor
      · intro hc
        have hok : allocOk = true := by
          simpa [fastB] using hc
        subst hok
        refine ⟨Vec.alloc ⟨1, 1⟩ [value], ?_, rfl, rfl, fun j hj => by omega⟩
        unfold vec_try_push
        rw [grow_null_ok]
        dsimp only
        rw [show (if true = true then errno else ENOMEM) = errno from rfl]
        rw [if_pos he]
        rw [size_sub_one_eq (le_refl 1) (one_lt_two_pow_of_le hw)]
        rfl
      · intro hc
        have hok : allocOk = false := by
          simpa [fastB] using hc
        subst hok
        unfold vec_try_push
        rw [grow_null_fail]
        dsimp only
        rw [show (if false = true then errno else ENOMEM) = ENOMEM from rfl]
        rw [if_neg (by simp)]
  | alloc h buf =>
      rw [goodB_alloc_iff] at hg
      obtain ⟨hlc, hpos, hbl, hcw⟩ := hg
      have hnh : n = h.len := by
        simp only [vec_len, Option.some.injEq] at hn
        omega
      subst hnh
      by_cases hlt : h.len < h.cap
      · constructor
        · intro _
          refine ⟨Vec.alloc ⟨h.len + 1, h.cap⟩ (buf.set h.len value), ?_, rfl,
            ?_, ?_⟩
          · unfold vec_try_push
            rw [grow_fast w allocOk junk h buf hlt hcw]
            dsimp only
            rw [show (if true = true then errno else ENOMEM) = errno from rfl]
            rw [if_pos he]
            rw [size_sub_one_eq (by omega) (by omega : h.len + 1 < 2 ^ w),
              Nat.add_sub_cancel]
            unfold memWrite
            rw [if_pos (by omega : h.len < buf.length)]
          · show (buf.set h.len value).get? h.len = some value
            exact list_get_set_same buf h.len value (by omega)
          · intro j hj
            show (buf.set h.len value).get? j = buf.get? j
            exact list_get_set_ne buf h.len j value (by omega)
        · intro hc
          simp [fastB, hlt] at hc
      · have hfull : h.len = h.cap := by omega
        have hno2 : h.cap * 2 < 2 ^ w := by
          simp [growNoOverflowB, hlt] at hno
          exact hno
        have hfb : fastB (Vec.alloc h buf) = false := by
          simp [fastB, hlt]
        constructor
        · intro hc
          have hok : allocOk = true := by
            rw [hfb, Bool.or_false] at hc
            exact hc
          subst hok
          have hbl2 : h.len < (buf ++ List.replicate h.cap junk).length := by
            simp [hbl]
            omega
          refine ⟨Vec.alloc ⟨h.len + 1, h.cap * 2⟩
              ((buf ++ List.replicate h.cap junk).set h.len value), ?_, rfl,
            ?_, ?_⟩
          · unfold vec_try_push
            rw [grow_full_ok w junk h buf hfull hpos hno2 hbl]
            dsimp only
            rw [show (if true = true then errno else ENOMEM) = errno from rfl]
            rw [if_pos he]
            rw [size_sub_one_eq (by omega) (by omega : h.len + 1 < 2 ^ w),
              Nat.add_sub_cancel]
            unfold memWrite
            rw [if_pos hbl2]
          · show ((buf ++ List.replicate h.cap junk).set h.len value).get?
                h.len = some value
            exact list_get_set_same _ h.len value hbl2
          · intro j hj
            show ((buf ++ List.replicate h.cap junk).set h.len value).get? j =
              buf.get? j
            rw [list_get_set_ne _ h.len j value (by omega)]
            exact list_get_append_left buf _ j (by omega)
        · intro hc
          have hok : allocOk = false := by
            rw [hfb, Bool.or_false] at hc
            exact hc
          subst hok
          unfold vec_try_push
          rw [grow_full_fail w junk h buf hlt]
          dsimp only
          rw [show (if false = true then errno else ENOMEM) = ENOMEM from rfl]
          rw [if_neg (by simp)]

/-- Witness for the amended C3: a successful fail-soft append of 7 onto a
fresh null array with `errno = 0`, and a failed one leaving the array
unchanged. -/
theorem try_push_fail_soft_witness :
    ((1 : Nat) ≤ 64 ∧ GoodB 64 (Vec.null : Vec Nat) = true ∧
      growNoOverflowB 64 (Vec.null : Vec Nat) = true ∧ (0 : Nat) ≠ ENOMEM ∧
      vec_len (Vec.null : Vec Nat) = some 0) ∧
    (((true || fastB (Vec.null : Vec Nat)) = true →
      ∃ v', vec_try_push 64 true (0 : Nat) 7 0 Vec.null = some (0, v') ∧
        vec_len v' = some (0 + 1) ∧ vec_index 0 v' = some 7 ∧
        ∀ j, j < 0 → vec_index j v' = vec_index j (Vec.null : Vec Nat)) ∧
     ((true || fastB (Vec.null : Vec Nat)) = false →
      vec_try_push 64 true (0 : Nat) 7 0 Vec.null = some (ENOMEM, Vec.null))) :=
  ⟨⟨by decide, by decide, by decide, by decide, by decide⟩,
    try_push_fail_soft 64 true 0 7 0 0 Vec.null (by decide) (by decide)
      (by decide) (by decide) (by decide)⟩

/-! Claim C4: fail-soft emplace.  The source macro does not compile (see the
doc comment on `vec_try_emplace`); the theorem below is about the repaired
model and records the behaviour the source evidently intends. -/

/-- C4 (for the repaired model of the source's `vec_try_emplace`, whose
result expression as written is a C syntax error): provided `errno` is not
already `ENOMEM`, the fail-soft emplace grows the array by one and returns
the index of the new last slot when growth succeeds, and returns the NULL
reference with the array unchanged when the allocator fails. -/
theorem try_emplace_repaired_spec {α : Type} (w : Nat) (allocOk : Bool)
    (junk : α) (errno n : Nat) (v : Vec α) (hw : 1 ≤ w)
    (hg : GoodB w v = true) (hno : growNoOverflowB w v = true)
    (he : errno ≠ ENOMEM) (hn : vec_len v = some n) :
    ((allocOk || fastB v) = true →
      ∃ v', vec_try_emplace w allocOk junk errno v = some (errno, v', some n) ∧
        vec_len v' = some (n + 1)) ∧
    ((allocOk || fastB v) = false →
      vec_try_emplace w allocOk junk errno v = some (ENOMEM, v, none)) := by
  cases v with
  | freed => simp [GoodB] at hg
  | null =>
      have hn0 : n = 0 := by
        simp only [vec_len, Option.some.injEq] at hn
        omega
      subst hn0
      constructor
      · intro hc
        have hok : allocOk = true := by
          simpa [fastB] using hc
        subst hok
        refine ⟨Vec.alloc ⟨1, 1⟩ [junk], ?_, rfl⟩
        unfold vec_try_emplace
        rw [grow_null_ok]
        dsimp only
        rw [show (if true = true then errno else ENOMEM) = errno from rfl]
        rw [if_pos he, size_sub_one_eq (le_refl 1) (one_lt_two_pow_of_le hw)]
      · intro hc
        have hok : allocOk = false := by
          simpa [fastB] using hc
        subst hok
        unfold vec_try_emplace
        rw [grow_null_fail]
        dsimp only
        rw [show (if false = true then errno else ENOMEM) = ENOMEM from rfl]
        rw [if_neg (by simp)]
  | alloc h buf =>
      rw [goodB_alloc_iff] at hg
      obtain ⟨hlc, hpos, hbl, hcw⟩ := hg
      have hnh : n = h.len := by
        simp only [vec_len, Option.some.injEq] at hn
        omega
      subst hnh
      by_cases hlt : h.len < h.cap
      · constructor
        · intro _
          refine ⟨Vec.alloc ⟨h.len + 1, h.cap⟩ buf, ?_, rfl⟩
          unfold vec_try_emplace
          rw [grow_fast w allocOk junk h buf hlt hcw]
          dsimp only
          rw [show (if true = true then errno else ENOMEM) = errno from rfl]
          rw [if_pos he,
            size_sub_one_eq (by omega) (by omega : h.len + 1 < 2 ^ w)]
          rfl
        · intro hc
          simp [fastB, hlt] at hc
      · have hfull : h.len = h.cap := by omega
        have hno2 : h.cap * 2 < 2 ^ w := by
          simp [growNoOverflowB, hlt] at hno
          exact hno
        have hfb : fastB (Vec.alloc h buf) = false := by
          simp [fastB, hlt]
        constructor
        · intro hc
          have hok : allocOk = true := by
            rw [hfb, Bool.or_false] at hc
            exact hc
          subst hok
          refine ⟨Vec.alloc ⟨h.len + 1, h.cap * 2⟩
              (buf ++ List.replicate h.cap junk), ?_, rfl⟩
          unfold vec_try_emplace
          rw [grow_full_ok w junk h buf hfull hpos hno2 hbl]
          dsimp only
          rw [show (if true = true then errno else ENOMEM) = errno from rfl]
          rw [if_pos he,
            size_sub_one_eq (by omega) (by omega : h.len + 1 < 2 ^ w)]
          rfl
        · intro hc
          have hok : allocOk = false := by
            rw [hfb, Bool.or_false] at hc
            exact hc
          subst hok
          unfold vec_try_emplace
          rw [grow_full_fail w junk h buf hlt]
          dsimp only
          rw [show (if false = true then errno else ENOMEM) = ENOMEM from rfl]
          rw [if_neg (by simp)]

/-- Witness for the repaired C4 at a concrete fresh array. -/
theorem try_emplace_repaired_spec_witness :
    ((1 : Nat) ≤ 64 ∧ GoodB 64 (Vec.null : Vec Nat) = true ∧
      growNoOverflowB 64 (Vec.null : Vec Nat) = true ∧ (0 : Nat) ≠ ENOMEM ∧
      vec_len (Vec.null : Vec Nat) = some 0) ∧
    (((true || fastB (Vec.null : Vec Nat)) = true →
      ∃ v', vec_try_emplace 64 true (0 : Nat) 0 Vec.null =
          some (0, v', some 0) ∧
        vec_len v' = some (0 + 1)) ∧
     ((true || fastB (Vec.null : Vec Nat)) = false →
      vec_try_emplace 64 true (0 : Nat) 0 Vec.null =
        some (ENOMEM, Vec.null, none))) :=
  ⟨⟨by decide, by decide, by decide, by decide, by decide⟩,
    try_emplace_repaired_spec 64 true 0 0 0 Vec.null (by decide) (by decide)
      (by decide) (by decide) (by decide)⟩

/-- Growth on a full array whose doubled capacity wraps to zero: the realloc
keeps no bytes (`min(old, 0)`), leaving an empty buffer with capacity 0. -/
theorem grow_full_wrap {α : Type} (w : Nat) (junk : α) (h : vec__header_t)
    (buf : List α) (hfull : ¬ h.len < h.cap)
    (hwrap : (h.cap * 2) % 2 ^ w = 0) :
    vec__grow_or_fail w true junk (Vec.alloc h buf) =
      some (Vec.alloc ⟨(h.len + 1) % 2 ^ w, 0⟩ [], true) := by
  simp only [vec__grow_or_fail, if_neg hfull, if_pos rfl, hwrap]
  simp

/-- Reservation on a null handle with a nonzero (truncated) request mallocs
exactly that many slots. -/
theorem reserve_null_ok {α : Type} (w : Nat) (junk : α) (K : Nat)
    (hK : ¬ K % 2 ^ w = 0) :
    vec__reserve_or_fail w true junk K (Vec.null : Vec α) =
      some (Vec.alloc ⟨0, K % 2 ^ w⟩ (List.replicate (K % 2 ^ w) junk),
        true) := by
  simp only [vec__reserve_or_fail, if_neg hK, if_pos rfl]
  simp

/-! Claim C5: append then read back in order. -/

/-- C5 counterexample: at `size_t` width 16, a run of 32769 pushes from a
freshly initialized array does not end in any observable state: the 32769th
push finds the array full at capacity 32768, wraps the doubled capacity to 0,
reallocates, and then stores through an out-of-bounds slot — undefined
behaviour — so there is no final state in which length is 32769 and the
pushed values can be read back. -/
theorem push_sequence_overflow_counterexample :
    runFrom 16 (0 : Nat) ⟨0, Vec.null⟩
      (List.replicate 32769 (VecOp.push true (7 : Nat))) = none := by
  have hrepl : List.replicate 32769 (VecOp.push true (7 : Nat)) =
      VecOp.push true 7 ::
        (List.replicate 32767 (VecOp.push true 7) ++ [VecOp.push true 7]) := by
    rw [show (32769 : Nat) = 32768 + 1 from rfl, List.replicate_succ]
    rw [show (32768 : Nat) = 32767 + 1 from rfl, List.replicate_succ']
  have hstep1 : step 16 (0 : Nat) ⟨0, Vec.null⟩ (VecOp.push true 7) =
      some ⟨0, Vec.alloc ⟨1, 1⟩ [7]⟩ := by
    simp only [step, vec_push]
    rw [grow_null_ok]
    rfl
  obtain ⟨buf', hrun, hlen⟩ :=
    pushes_pow 16 (0 : Nat) 7 0 15 (by norm_num) [7] rfl
  norm_num at hrun hlen
  have hfinal : step 16 (0 : Nat) ⟨0, Vec.alloc ⟨32768, 32768⟩ buf'⟩
      (VecOp.push true 7) = none := by
    simp only [step, vec_push]
    rw [grow_full_wrap 16 0 ⟨32768, 32768⟩ buf' (by decide) (by decide)]
    rfl
  rw [hrepl, runFrom_cons_some 16 0 hstep1,
    runFrom_append_some 16 0 _ _ hrun, runFrom_singleton_none 16 0 hfinal]

/-- C5 amended: starting from a freshly initialized array, after `N`
successful pushes of values `v1 .. vN` with `N ≤ 2 ^ (w - 1)` (so no
capacity doubling can overflow `size_t`), the length equals `N` and reading
indices `0 .. N - 1` returns the pushed values in order. -/
theorem push_sequence_in_order {α : Type} (w : Nat) (junk : α) (e : Nat)
    (vs : List α) (hw : 1 ≤ w) (hN : vs.length ≤ 2 ^ (w - 1)) :
    ∃ m', runFrom w junk ⟨e, Vec.null⟩ (vs.map (VecOp.push true)) = some m' ∧
      vec_len m'.vec = some vs.length ∧
      ∀ i, i < vs.length → vec_index i m'.vec = vs.get? i := by
  cases vs with
  | nil => exact ⟨⟨e, Vec.null⟩, rfl, rfl, fun i hi => by simp at hi⟩
  | cons x rest =>
      have hstep : step w junk ⟨e, Vec.null⟩ (VecOp.push true x) =
          some ⟨e, Vec.alloc ⟨1, 1⟩ [x]⟩ := by
        simp only [step, vec_push]
        rw [grow_null_ok]
        dsimp only
        rw [size_sub_one_eq (le_refl 1) (one_lt_two_pow_of_le hw)]
        rfl
      rw [List.map_cons, runFrom_cons, hstep]
      simp only [Option.some_bind]
      have hN2 : 1 + rest.length ≤ 2 ^ (w - 1) := by
        simp only [List.length_cons] at hN
        omega
      obtain ⟨c', buf', hrun, hbl', hc1, hc2, htake⟩ :=
        pushes_spec w junk e hw rest 1 1 [x] (le_refl 1) (le_refl 1)
          (by omega) rfl hN2
      refine ⟨⟨e, Vec.alloc ⟨1 + rest.length, c'⟩ buf'⟩, hrun, ?_, ?_⟩
      · show some (1 + rest.length) = some (x :: rest).length
        simp [Nat.add_comm]
      · intro i hi
        have hi' : i < 1 + rest.length := by
          simp only [List.length_cons] at hi
          omega
        show buf'.get? i = (x :: rest).get? i
        rw [← list_get_take buf' (1 + rest.length) i hi', htake]
        rfl

/-- Witness for the amended C5: pushing `[3, 1, 2]` at `w = 64` gives length
3 and reads back `3, 1, 2`. -/
theorem push_sequence_in_order_witness :
    ((1 : Nat) ≤ 64 ∧ [(3 : Nat), 1, 2].length ≤ 2 ^ (64 - 1)) ∧
    (∃ m', runFrom 64 (0 : Nat) ⟨0, Vec.null⟩
          ([(3 : Nat), 1, 2].map (VecOp.push true)) = some m' ∧
      vec_len m'.vec = some [(3 : Nat), 1, 2].length ∧
      ∀ i, i < [(3 : Nat), 1, 2].length →
        vec_index i m'.vec = [(3 : Nat), 1, 2].get? i) :=
  ⟨⟨by decide, by decide⟩,
    push_sequence_in_order 64 0 0 [3, 1, 2] (by decide) (by decide)⟩

/-! Claim C2: the documented invariant over all call sequences. -/

/-- C2 counterexample: at `size_t` width 16, the sequence init, reserve
32768, then 32769 emplaces (all allocations succeeding) reaches an allocated
state whose header reads length 32769 and capacity 0 — violating both
`length ≤ capacity` and `capacity == 0 iff unallocated` — because the
32769th emplace doubles the full capacity 32768 to `65536 % 2 ^ 16 = 0`. -/
theorem invariant_overflow_counterexample :
    runFrom 16 (0 : Nat) ⟨0, Vec.null⟩
        (VecOp.init :: VecOp.reserve true 32768 ::
          (List.replicate 32768 (VecOp.emplace true) ++ [VecOp.emplace true])) =
      some ⟨0, Vec.alloc ⟨32769, 0⟩ []⟩ ∧
    vec_len (Vec.alloc ⟨32769, 0⟩ ([] : List Nat)) = some 32769 ∧
    vec_cap (Vec.alloc ⟨32769, 0⟩ ([] : List Nat)) = some 0 ∧
    Vec.alloc ⟨32769, 0⟩ ([] : List Nat) ≠ Vec.null := by
  refine ⟨?_, rfl, rfl, by decide⟩
  have hmod : (32768 : Nat) % 2 ^ 16 = 32768 := by norm_num
  have hres : step 16 (0 : Nat) ⟨0, Vec.null⟩ (VecOp.reserve true 32768) =
      some ⟨0, Vec.alloc ⟨0, 32768⟩ (List.replicate 32768 0)⟩ := by
    simp only [step, vec_reserve]
    rw [reserve_null_ok 16 0 32768 (by rw [hmod]; norm_num), hmod]
    rfl
  have hrun := run_emplaceN 16 (0 : Nat) 0 32768 0 32768
    (List.replicate 32768 0) (by omega) (by norm_num)
  rw [Nat.zero_add] at hrun
  have hemp : step 16 (0 : Nat)
      ⟨0, Vec.alloc ⟨32768, 32768⟩ (List.replicate 32768 0)⟩
      (VecOp.emplace true) = some ⟨0, Vec.alloc ⟨32769, 0⟩ []⟩ := by
    simp only [step, vec_emplace]
    rw [grow_full_wrap 16 0 ⟨32768, 32768⟩ (List.replicate 32768 0)
      (by decide) (by decide)]
    rfl
  rw [runFrom_cons_some 16 0 (show step 16 (0 : Nat) ⟨0, Vec.null⟩
      VecOp.init = some ⟨0, Vec.null⟩ from rfl),
    runFrom_cons_some 16 0 hres, runFrom_append_some 16 0 _ _ hrun,
    runFrom_singleton_some 16 0 hemp]

/-- C2 amended: for every finite sequence of public operations starting from
`vec_init`, as long as no growth-triggering call doubles a capacity at or
above `2 ^ (w - 1)` (no `size_t` overflow in `cap * 2`), every state
observed after a completed call satisfies `length ≤ capacity`, and
`capacity` reads 0 exactly on the null/unallocated handle. -/
theorem invariant_holds_no_overflow {α : Type} (w : Nat) (junk : α) (e0 : Nat)
    (ops : List (VecOp α)) (hw : 1 ≤ w)
    (hno : ∀ p ∈ (Mach.mk e0 Vec.null ::
        runStates w junk ⟨e0, Vec.null⟩ ops).zip ops,
      noOverflowStep w p.1.vec p.2 = true) :
    ∀ m' ∈ runStates w junk ⟨e0, Vec.null⟩ ops,
      (∀ l c, vec_len m'.vec = some l → vec_cap m'.vec = some c → l ≤ c) ∧
      (vec_cap m'.vec = some 0 ↔ m'.vec = Vec.null) := by
  intro m' hm'
  exact invB_claim (runStates_inv w junk hw ops ⟨e0, Vec.null⟩ rfl hno m' hm')

/-- Witness for the amended C2: a concrete five-call sequence at `w = 64`
(init, push, reserve 10, pop, deinit). -/
theorem invariant_holds_no_overflow_witness :
    ((1 : Nat) ≤ 64 ∧
      (∀ p ∈ (Mach.mk 0 (Vec.null : Vec Nat) ::
          runStates 64 (0 : Nat) ⟨0, Vec.null⟩
            [VecOp.init, VecOp.push true 5, VecOp.reserve true 10, VecOp.pop,
              VecOp.deinit]).zip
          [VecOp.init, VecOp.push true 5, VecOp.reserve true 10, VecOp.pop,
            VecOp.deinit],
        noOverflowStep 64 p.1.vec p.2 = true)) ∧
    (∀ m' ∈ runStates 64 (0 : Nat) ⟨0, Vec.null⟩
        [VecOp.init, VecOp.push true 5, VecOp.reserve true 10, VecOp.pop,
          VecOp.deinit],
      (∀ l c, vec_len m'.vec = some l → vec_cap m'.vec = some c → l ≤ c) ∧
      (vec_cap m'.vec = some 0 ↔ m'.vec = Vec.null)) :=
  ⟨⟨by decide, by decide⟩,
    invariant_holds_no_overflow 64 0 0
      [VecOp.init, VecOp.push true 5, VecOp.reserve true 10, VecOp.pop,
        VecOp.deinit] (by decide) (by decide)⟩

end CVec
